import Mathlib

/-!
Verification development for the slog-handler repository: a structured-log
formatting layer consisting of a formatting handler (handler.go), an
attribute transform installed as the engine's ReplaceAttr hook (logger.go),
and a discarding null handler.

The Go code is shallowly embedded: pure functions become Lean functions,
the stateful Handle method becomes an explicit-state function returning an
outcome record (return value, event trace for the lock/buffer discipline,
final scratch-buffer contents, bytes written to the sink, and the merged
field-set handed to serialization).  External collaborators (the delegate
slog JSON handler, the JSON codec, the output sink) are parameters, so the
theorems quantify over their behavior; a concrete instantiation of the
delegate as wired by NewLogger is also defined for end-to-end facts.
-/

namespace Slog

/- JSON-like dynamic values carried by log attributes, mirroring the
subset of Go values the pipeline moves around (string, number, bool,
slog.Source pointers, decoded JSON arrays and objects, and nil).
Arrays and objects use mutually inductive list types so that all
functions on values are structural recursions. -/
mutual

inductive Value : Type where
  | null : Value
  | str (s : String) : Value
  | int (n : Int) : Value
  | bool (b : Bool) : Value
  | source (file : String) (line : Int) : Value
  | arr (elems : ValueList) : Value
  | obj (fields : FieldList) : Value

inductive ValueList : Type where
  | nil : ValueList
  | cons (v : Value) (t : ValueList) : ValueList

inductive FieldList : Type where
  | nil : FieldList
  | cons (k : String) (v : Value) (t : FieldList) : FieldList

end

deriving instance DecidableEq for Value, ValueList, FieldList

/-- A slog.Attr: a key/value pair. -/
structure Attr : Type where
  key : String
  value : Value
deriving DecidableEq

/-- The zero slog.Attr{}: empty key, nil value. -/
def Attr.empty : Attr := ⟨"", Value.null⟩

/-! ### Small string models of Go library functions

Character-list implementations are used (rather than the core String
loops) so every definition reduces by plain kernel computation. -/

/-- ASCII lower-casing of one character, as strings.ToLower does for the
ASCII range (the only range the handler feeds it). -/
def charToLower (c : Char) : Char :=
  if 65 ≤ c.toNat ∧ c.toNat ≤ 90 then Char.ofNat (c.toNat + 32) else c

/-- Model of strings.ToLower (ASCII). -/
def strToLower (s : String) : String := ⟨s.data.map charToLower⟩

/-- strings.Split on a single separator character: splitOnChar c l is the
list of maximal runs of l not containing c.  Never returns []. -/
def splitOnChar (c : Char) : List Char → List (List Char)
  | [] => [[]]
  | x :: t =>
    if x = c then [] :: splitOnChar c t
    else
      match splitOnChar c t with
      | [] => [[x]]
      | s :: ss => (x :: s) :: ss

/-- strings.Join with a single separator character. -/
def joinChar (c : Char) (xs : List (List Char)) : List Char :=
  List.intercalate [c] xs

/-! ### Model of the path/filepath functions used by the transform -/

/-- filepath.Split: everything up to and including the final slash, and
the remainder. -/
def pathSplit (p : List Char) : List Char × List Char :=
  ((p.reverse.dropWhile (· ≠ '/')).reverse, (p.reverse.takeWhile (· ≠ '/')).reverse)

/-- filepath.Base: last element of the path after trailing slashes are
removed; "." for the empty path, "/" for all-slash paths. -/
def pathBase (p : List Char) : List Char :=
  if p = [] then ['.']
  else
    let q := (p.reverse.dropWhile (· = '/')).reverse
    if q = [] then ['/']
    else (q.reverse.takeWhile (· ≠ '/')).reverse

/-- One step of filepath.Clean's element processing: the accumulator is
the stack of kept elements in reverse order. -/
def cleanStep (rooted : Bool) (acc : List (List Char)) (seg : List Char) : List (List Char) :=
  if seg = [] ∨ seg = ['.'] then acc
  else if seg = ['.', '.'] then
    match acc with
    | [] => if rooted then [] else [['.', '.']]
    | s :: rest => if s = ['.', '.'] then seg :: acc else rest
  else seg :: acc

/-- filepath.Clean (unix rules). -/
def pathClean (p : List Char) : List Char :=
  if p = [] then ['.']
  else
    let rooted := decide (p.head? = some '/')
    let segs := splitOnChar '/' p
    let body := joinChar '/' (segs.foldl (cleanStep rooted) []).reverse
    if rooted then '/' :: body
    else if body = [] then ['.'] else body

/-- filepath.Join for two elements: empty elements are dropped and the
result is Cleaned. -/
def pathJoin2 (a b : List Char) : List Char :=
  if a ≠ [] then pathClean (a ++ '/' :: b)
  else if b ≠ [] then pathClean b
  else []

/-- The source-location rewrite in logger.go:
dir, file := filepath.Split(s.File);
fmt.Sprintf("%s:%d", filepath.Join(filepath.Base(dir), file), s.Line). -/
def formatSource (file : String) (line : Int) : String :=
  let s := pathSplit file.data
  ⟨pathJoin2 (pathBase s.1) s.2⟩ ++ ":" ++ toString line

/-! ### The attribute transform (ReplaceAttr hook built in NewLogger) -/

/- Verbose, syntax-revealing rendering, modelling fmt's %#v verb on the
values the pipeline carries: goSyntaxRepr and its helpers. -/
mutual

def goSyntaxRepr : Value → String
  | Value.null => "<nil>"
  | Value.str s => "\x22" ++ s ++ "\x22"
  | Value.int n => toString n
  | Value.bool b => if b then "true" else "false"
  | Value.source f l => "&slog.Source\x7bFile:\x22" ++ f ++ "\x22, Line:" ++ toString l ++ "\x7d"
  | Value.arr xs => "[]interface \x7b\x7d\x7b" ++ goSyntaxReprList xs ++ "\x7d"
  | Value.obj kvs => "map[string]interface \x7b\x7d\x7b" ++ goSyntaxReprFields kvs ++ "\x7d"

def goSyntaxReprList : ValueList → String
  | ValueList.nil => ""
  | ValueList.cons v ValueList.nil => goSyntaxRepr v
  | ValueList.cons v t => goSyntaxRepr v ++ ", " ++ goSyntaxReprList t

def goSyntaxReprFields : FieldList → String
  | FieldList.nil => ""
  | FieldList.cons k v FieldList.nil => "\x22" ++ k ++ "\x22:" ++ goSyntaxRepr v
  | FieldList.cons k v t => "\x22" ++ k ++ "\x22:" ++ goSyntaxRepr v ++ ", " ++ goSyntaxReprFields t

end

/-- The ReplaceAttr function NewLogger installs (logger.go).  Rules in
source order: drop the three reserved keys; rewrite the source-location
key's value to parent-dir/file:line; unwrap a leading raw; key segment
into a verbose rendering of the value; otherwise pass through.  The Go
code type-asserts *slog.Source in the source branch; the engine only ever
supplies a source value there, so other shapes are left unchanged. -/
def replaceAttr (_groups : List String) (a : Attr) : Attr :=
  if a.key = "level" ∨ a.key = "msg" ∨ a.key = "time" then Attr.empty
  else
    let key := splitOnChar ';' a.key.data
    if a.key = "source" then
      match a.value with
      | Value.source file line => { a with value := Value.str (formatSource file line) }
      | _ => a
    else if key.head? = some "raw".data then
      { key := ⟨joinChar ';' key.tail⟩, value := Value.str (goSyntaxRepr a.value) }
    else a

/-! ### Records, levels and colors -/

/-- A slog.Record as the handler sees it: the fields it reads are the
(already DateTime-formatted) timestamp, the numeric level, the message
and the ordered attribute list. -/
structure Record : Type where
  time : String
  level : Int
  message : String
  attrs : List Attr

/-- slog.Level.String(): base name of the band plus a signed offset when
the level is not exactly on a band boundary. -/
def levelSuffix (d : Int) : String :=
  if d = 0 then "" else if 0 < d then "+" ++ toString d else toString d

/-- Model of slog.Level.String(). -/
def levelString (l : Int) : String :=
  if l < 0 then "DEBUG" ++ levelSuffix (l + 4)
  else if l < 4 then "INFO" ++ levelSuffix l
  else if l < 8 then "WARN" ++ levelSuffix (l - 4)
  else "ERROR" ++ levelSuffix (l - 8)

/-- ANSI color wrapping as the fatih/color string helpers produce it. -/
def ansi (code : String) (s : String) : String :=
  "\x1b[" ++ code ++ "m" ++ s ++ "\x1b[0m"

/-- ParseColor (logger.go): colorize a level name, keyed on its
lower-cased form; unrecognized names get the green default. -/
def parseColor (level : String) : String :=
  if strToLower level = "debug" then ansi "37" level
  else if strToLower level = "error" then ansi "31" level
  else if strToLower level = "warn" then ansi "33" level
  else ansi "32" level

/-! ### The formatting handler -/

/-- State of the delegate slog handler chain a Handler wraps: attributes
bound by WithAttrs and group scopes opened by WithGroup, in order. -/
inductive BoundItem : Type where
  | attr (a : Attr) : BoundItem
  | group (name : String) : BoundItem

/-- The visible state of a Handler (handler.go): output format, the
pretty flag, and the wrapped delegate's bound chain.  The shared output
sink, scratch buffer and mutex are modelled explicitly in Handle. -/
structure Handler : Type where
  format : String
  pretty : Bool
  bound : List BoundItem

/-- Scratch-buffer operations: the empty buffer (bytes.Buffer.Reset) and
appending the bytes a writer produces. -/
structure BufOps (β : Type) : Type where
  empty : β
  append : β → β → β

/-- The JSON codec Handle uses: json.Unmarshal of the scratch buffer into
a flat mapping, and json.Marshal / json.MarshalIndent of the field-set.
All three may fail; they are parameters because encoding/json is an
external collaborator. -/
structure Codec (β : Type) : Type where
  unmarshalObj : β → Except Unit (List (String × Value))
  marshal : List (String × Value) → Except Unit String
  marshalIndent : List (String × Value) → Except Unit String

/-- Observable events of one Handle call, in order: taking the mutex,
writing to the sink, resetting the scratch buffer, releasing the mutex. -/
inductive Event : Type where
  | lock : Event
  | write (bytes : String) : Event
  | resetBuffer : Event
  | unlock : Event

/-- Everything one Handle call leaves behind: its return value, the event
trace, the scratch buffer after the deferred Reset, the bytes handed to
the sink (none when the call aborts first), and the merged field-set that
reached the serialization step (none when the call aborts first). -/
structure HandleOutcome (β : Type) : Type where
  ret : Except Unit Unit
  events : List Event
  bufferFinal : β
  written : Option String
  fieldsUsed : Option (List (String × Value))

/-- Go map assignment fields[k] = v on an association list: overwrite in
place if the key is present, append otherwise. -/
def insertField : List (String × Value) → String → Value → List (String × Value)
  | [], k, v => [(k, v)]
  | (k1, v1) :: t, k, v =>
    if k1 = k then (k, v) :: t else (k1, v1) :: insertField t k v

/-- Go map lookup on the association-list model. -/
def lookupField : List (String × Value) → String → Option Value
  | [], _ => none
  | (k1, v1) :: t, k => if k1 = k then some v1 else lookupField t k

/-- The fields map Handle builds by walking a record's attributes in
order (r.Attrs with fields[a.Key] = a.Value.Any()).  Go's map iteration
order is unspecified; the model keeps insertion order. -/
def buildFields (attrs : List Attr) : List (String × Value) :=
  attrs.foldl (fun m a => insertField m a.key a.value) []

/-- The seeded attributes Handle adds in JSON mode: level (lower-cased
level name), msg, and time (DateTime-formatted stamp). -/
def seedAttrs (r : Record) : List Attr :=
  [⟨"level", Value.str (strToLower (levelString r.level))⟩,
   ⟨"msg", Value.str r.message⟩,
   ⟨"time", Value.str r.time⟩]

/-- The record the delegate encoder receives: in JSON mode the seeded
attributes are appended to the record first; in text mode the record is
passed unchanged. -/
def recordForEncode (h : Handler) (r : Record) : Record :=
  if h.format = "json" then { r with attrs := r.attrs ++ seedAttrs r } else r

/-- The colorized text-mode line head: "time level message ". -/
def textLead (r : Record) : String :=
  r.time ++ " " ++ parseColor (levelString r.level) ++ " " ++ ansi "36" r.message ++ " "

/-- What Handle puts in out before serialization: nothing in JSON mode,
the colorized head in text mode. -/
def outLead (h : Handler) (r : Record) : String :=
  if h.format = "json" then "" else textLead r

/-- The raw debug dump: one literal "\n\t<key>: <verbose-repr>" chunk per
field, in field order. -/
def rawDump (fields : List (String × Value)) : String :=
  fields.foldl (fun acc kv => acc ++ "\n\t" ++ kv.1 ++ ": " ++ goSyntaxRepr kv.2) ""

/-- The field-set Handle serializes: the encoded record's attributes
followed by the decoded scratch-buffer mapping, folded into a map, so a
decoded binding overwrites any earlier binding of the same key. -/
def mergedFields (h : Handler) (r : Record) (decoded : List (String × Value)) :
    List (String × Value) :=
  buildFields ((recordForEncode h r).attrs ++ decoded.map (fun kv => Attr.mk kv.1 kv.2))

/-- The serialization step of Handle: with the pretty flag and the
literal message "raw", the verbose dump (no JSON serialization at all);
with the pretty flag otherwise, json.MarshalIndent with two-space indent;
without it, compact json.Marshal. -/
def serializeFields {β : Type} (cdc : Codec β) (h : Handler) (msg : String)
    (fields : List (String × Value)) : Except Unit String :=
  if h.pretty then
    if msg = "raw" then Except.ok (rawDump fields)
    else cdc.marshalIndent fields
  else cdc.marshal fields

/-- Handler.Handle (handler.go).  The mutex acquisition, the deferred
buffer Reset and mutex release, and the sink write appear in the event
trace; the delegate encoder, the JSON codec and the sink's own write
result are parameters.  The sink result parameter is unused exactly
because the code discards h.w.Write's results. -/
def Handle {β : Type} (bo : BufOps β) (cdc : Codec β)
    (delegate : List BoundItem → Record → Except Unit β)
    (h : Handler) (b0 : β) (_sinkErr : Bool) (r : Record) : HandleOutcome β :=
  match delegate h.bound (recordForEncode h r) with
  | Except.error _ =>
    { ret := Except.error (), events := [Event.lock, Event.resetBuffer, Event.unlock],
      bufferFinal := bo.empty, written := none, fieldsUsed := none }
  | Except.ok bytes =>
    match cdc.unmarshalObj (bo.append b0 bytes) with
    | Except.error _ =>
      { ret := Except.error (), events := [Event.lock, Event.resetBuffer, Event.unlock],
        bufferFinal := bo.empty, written := none, fieldsUsed := none }
    | Except.ok decoded =>
      let fields := mergedFields h r decoded
      match serializeFields cdc h r.message fields with
      | Except.error _ =>
        { ret := Except.error (), events := [Event.lock, Event.resetBuffer, Event.unlock],
          bufferFinal := bo.empty, written := none, fieldsUsed := some fields }
      | Except.ok body =>
        let out := outLead h r ++ body ++ "\n"
        { ret := Except.ok (),
          events := [Event.lock, Event.write out, Event.resetBuffer, Event.unlock],
          bufferFinal := bo.empty, written := some out, fieldsUsed := some fields }

/-- The result of a derivation call: the receiver itself (return h), or a
fresh shallow copy (return a pointer to h2). -/
inductive DeriveResult : Type where
  | same : DeriveResult
  | derived (h2 : Handler) : DeriveResult

/-- Handler.WithAttrs: with fewer than one attribute, the receiver is
returned unchanged; otherwise a shallow copy whose delegate chain is
extended by the attributes. -/
def Handler.withAttrs (h : Handler) (attrs : List Attr) : DeriveResult :=
  if attrs.length < 1 then DeriveResult.same
  else DeriveResult.derived { h with bound := h.bound ++ attrs.map BoundItem.attr }

/-- Handler.WithGroup: always a shallow copy with the delegate chain
extended by the named group. -/
def Handler.withGroup (h : Handler) (name : String) : DeriveResult :=
  DeriveResult.derived { h with bound := h.bound ++ [BoundItem.group name] }

/-! ### The null (discard) handler -/

/-- NullHandler: a fieldless struct. -/
structure NullHandler : Type where

/-- NullHandler.Enabled: false for every level. -/
def NullHandler.enabled (_h : NullHandler) (_level : Int) : Bool := false

/-- NullHandler.Handle: succeeds and writes nothing. -/
def NullHandler.handle (_h : NullHandler) (_r : Record) : Except Unit Unit × Option String :=
  (Except.ok (), none)

/-- NullHandler.WithAttrs: returns the receiver. -/
def NullHandler.withAttrs (h : NullHandler) (_attrs : List Attr) : NullHandler := h

/-- NullHandler.WithGroup: returns the receiver. -/
def NullHandler.withGroup (h : NullHandler) (_name : String) : NullHandler := h

/-! ### The delegate encoder as NewLogger wires it

NewLogger wraps a slog JSON handler writing to the scratch buffer, with
the replaceAttr hook installed.  The mapping its output decodes back to:
the built-in time/level/msg fields and every attribute go through the
hook; attributes the hook maps to the zero Attr are elided; a group scope
nests everything after it under the group's name, and empty groups are
elided. -/

/-- An attribute after the ReplaceAttr hook, elided when the hook returns
the zero Attr (that is how the slog handlers treat a replaced attr). -/
def elideTransform (a : Attr) : Option (String × Value) :=
  let a2 := replaceAttr [] a
  if a2 = Attr.empty then none else some (a2.key, a2.value)

/-- Conversion of a pair list into the object payload representation. -/
def toFieldList : List (String × Value) → FieldList
  | [] => FieldList.nil
  | (k, v) :: t => FieldList.cons k v (toFieldList t)

/-- The key/value pairs the delegate JSON handler emits for a bound chain
followed by the record's own attributes. -/
def encodedPairs : List BoundItem → List Attr → List (String × Value)
  | [], ras => ras.filterMap elideTransform
  | BoundItem.attr a :: rest, ras =>
    match elideTransform a with
    | none => encodedPairs rest ras
    | some kv => kv :: encodedPairs rest ras
  | BoundItem.group g :: rest, ras =>
    match encodedPairs rest ras with
    | [] => []
    | inner => [(g, Value.obj (toFieldList inner))]

/-- The built-in record fields the delegate emits ahead of attributes;
under the NewLogger hook all three are dropped by key before their values
matter, so string stand-ins are used for the time and level payloads. -/
def builtinAttrs (r : Record) : List Attr :=
  [⟨"time", Value.str r.time⟩,
   ⟨"level", Value.str (levelString r.level)⟩,
   ⟨"msg", Value.str r.message⟩]

/-- The flat mapping the scratch buffer decodes to after the delegate (as
wired by NewLogger, without AddSource) encodes a record. -/
def delegateMapping (bound : List BoundItem) (r : Record) : List (String × Value) :=
  (builtinAttrs r).filterMap elideTransform ++ encodedPairs bound r.attrs

/-- A key is one of the three reserved output keys. -/
def reservedKey (k : String) : Prop := k = "level" ∨ k = "msg" ∨ k = "time"

instance (k : String) : Decidable (reservedKey k) :=
  if h1 : k = "level" then isTrue (Or.inl h1)
  else if h2 : k = "msg" then isTrue (Or.inr (Or.inl h2))
  else if h3 : k = "time" then isTrue (Or.inr (Or.inr h3))
  else isFalse (fun hc => hc.elim h1 (fun hc2 => hc2.elim h2 h3))

/-- Buffer operations for the concrete pipeline in which the scratch
buffer holds the already-structured pair list. -/
def pairBuf : BufOps (List (String × Value)) := ⟨[], fun a b => a ++ b⟩

/-- A codec whose decode is the identity on the pair-list buffer and
whose serializers always fail; Handle never consults the serializers on
the paths exercised with it. -/
def failSerializeCodec : Codec (List (String × Value)) :=
  ⟨fun b => Except.ok b, fun _ => Except.error (), fun _ => Except.error ()⟩

/-- The delegate encoder as NewLogger wires it, modelled as producing the
mapping its JSON output decodes back to. -/
def loggerDelegate : List BoundItem → Record → Except Unit (List (String × Value)) :=
  fun b r => Except.ok (delegateMapping b r)

/-- A record whose only attribute uses the raw; convention to alias the
reserved key level. -/
def spoofRecord : Record :=
  ⟨"2024-01-02 03:04:05", 0, "m", [⟨"raw;level", Value.str "spoof"⟩]⟩

/-! ## Association-map lemmas for the fields construction -/

theorem lookupField_insertField_self (m : List (String × Value)) (k : String) (v : Value) :
    lookupField (insertField m k v) k = some v := by
  induction m with
  | nil => simp [insertField, lookupField]
  | cons p t ih =>
    by_cases hk : p.1 = k
    · simp [insertField, lookupField, hk]
    · simpa [insertField, lookupField, hk] using ih

theorem lookupField_insertField_ne (m : List (String × Value)) (k k2 : String) (v : Value)
    (hne : k ≠ k2) : lookupField (insertField m k v) k2 = lookupField m k2 := by
  induction m with
  | nil => simp [insertField, lookupField, hne]
  | cons p t ih =>
    by_cases hk : p.1 = k
    · simp [insertField, lookupField, hk, hne]
    · simp [insertField, lookupField, hk, ih]

theorem lookupField_fold_not_mem (l : List Attr) (k : String) (hk : ∀ a ∈ l, a.key ≠ k) :
    ∀ acc : List (String × Value),
      lookupField (l.foldl (fun m a => insertField m a.key a.value) acc) k = lookupField acc k := by
  induction l with
  | nil => intro acc; rfl
  | cons b t ih =>
    intro acc
    have hb : b.key ≠ k := hk b (List.mem_cons_self b t)
    have ht : ∀ a ∈ t, a.key ≠ k := fun a ha => hk a (List.mem_cons_of_mem b ha)
    simp [List.foldl_cons, ih ht, lookupField_insertField_ne acc b.key k b.value hb]

theorem lookupField_fold_mem (l : List Attr) (a : Attr) (ha : a ∈ l)
    (hnd : (l.map Attr.key).Nodup) :
    ∀ acc : List (String × Value),
      lookupField (l.foldl (fun m x => insertField m x.key x.value) acc) a.key = some a.value := by
  induction l with
  | nil => cases ha
  | cons b t ih =>
    intro acc
    rcases List.mem_cons.mp ha with hab | hat
    · subst hab
      have hknot : a.key ∉ t.map Attr.key := (List.nodup_cons.mp hnd).1
      have ht : ∀ x ∈ t, x.key ≠ a.key := by
        intro x hx hcontra
        exact hknot (hcontra ▸ List.mem_map_of_mem Attr.key hx)
      rw [List.foldl_cons, lookupField_fold_not_mem t a.key ht]
      exact lookupField_insertField_self acc a.key a.value
    · exact ih hat (List.nodup_cons.mp hnd).2 _

/-! ## Claims about the attribute transform -/

/-- C5: for every attribute whose key equals one of the three reserved
keys (level, msg, time), the transform returns the empty attribute, so
the attribute is dropped and never reaches the encoded output. -/
theorem replaceAttr_reserved_drop (gs : List String) (a : Attr)
    (hk : a.key = "level" ∨ a.key = "msg" ∨ a.key = "time") :
    replaceAttr gs a = Attr.empty := by
  unfold replaceAttr
  rw [if_pos hk]

theorem replaceAttr_reserved_drop_witness :
    ("msg" = "level" ∨ ("msg" : String) = "msg" ∨ "msg" = "time") ∧
    replaceAttr [] ⟨"msg", Value.str "hello"⟩ = Attr.empty :=
  ⟨Or.inr (Or.inl rfl), replaceAttr_reserved_drop [] ⟨"msg", Value.str "hello"⟩
    (Or.inr (Or.inl rfl))⟩

/-- C6: for every attribute whose key, split on ";", has the literal
token "raw" as its first segment (and whose key is not the
source-location key), the transform rewrites the key to the remaining
segments rejoined with ";" and the value to the verbose rendering of the
original value. -/
theorem replaceAttr_raw_rewrite (gs : List String) (a : Attr)
    (hraw : (splitOnChar ';' a.key.data).head? = some "raw".data)
    (hsrc : a.key ≠ "source") :
    replaceAttr gs a =
      { key := ⟨joinChar ';' (splitOnChar ';' a.key.data).tail⟩,
        value := Value.str (goSyntaxRepr a.value) } := by
  have hres : ¬(a.key = "level" ∨ a.key = "msg" ∨ a.key = "time") := by
    rintro (h | h | h) <;> (rw [h] at hraw; exact absurd hraw (by decide))
  unfold replaceAttr
  rw [if_neg hres, if_neg hsrc, if_pos hraw]

theorem replaceAttr_raw_rewrite_witness :
    (splitOnChar ';' ("raw;x;y" : String).data).head? = some "raw".data ∧
    replaceAttr [] ⟨"raw;x;y", Value.int 5⟩ =
      { key := ⟨joinChar ';' (splitOnChar ';' ("raw;x;y" : String).data).tail⟩,
        value := Value.str (goSyntaxRepr (Value.int 5)) } :=
  ⟨by decide, replaceAttr_raw_rewrite [] ⟨"raw;x;y", Value.int 5⟩ (by decide) (by decide)⟩

/-! ## Claims about derivation and the null handler -/

/-- C8: WithAttrs on an empty attribute list returns the receiver itself
(no copy); on a non-empty list it returns a distinct derived handler
whose bound chain is extended by the given attributes and whose other
visible state (format, pretty flag) is the parent's, the parent value
itself being left untouched by the derivation. -/
theorem withAttrs_derivation (h : Handler) (attrs : List Attr) :
    Handler.withAttrs h [] = DeriveResult.same ∧
    (attrs ≠ [] →
      Handler.withAttrs h attrs =
        DeriveResult.derived ⟨h.format, h.pretty, h.bound ++ attrs.map BoundItem.attr⟩ ∧
      Handler.withAttrs h attrs ≠ DeriveResult.same) := by
  refine ⟨by simp [Handler.withAttrs], fun hne => ?_⟩
  have hlen : ¬ attrs.length < 1 := by
    cases attrs with
    | nil => exact absurd rfl hne
    | cons a t => simp
  refine ⟨?_, ?_⟩
  · simp [Handler.withAttrs, hlen]
  · simp [Handler.withAttrs, hlen]

theorem withAttrs_derivation_witness :
    (([⟨"service", Value.str "api"⟩] : List Attr) ≠ []) ∧
    Handler.withAttrs ⟨"json", false, []⟩ [⟨"service", Value.str "api"⟩] =
      DeriveResult.derived ⟨"json", false, [BoundItem.attr ⟨"service", Value.str "api"⟩]⟩ ∧
    Handler.withAttrs ⟨"json", false, []⟩ [⟨"service", Value.str "api"⟩] ≠ DeriveResult.same :=
  ⟨by simp,
   (withAttrs_derivation ⟨"json", false, []⟩ [⟨"service", Value.str "api"⟩]).2 (by simp)⟩

/-- C9: the discard handler reports every level disabled, handles every
record successfully without writing anything, and both derivation
operations return the identical receiver. -/
theorem nullHandler_contract (h : NullHandler) (level : Int) (r : Record)
    (attrs : List Attr) (g : String) :
    NullHandler.enabled h level = false ∧
    NullHandler.handle h r = (Except.ok (), none) ∧
    NullHandler.withAttrs h attrs = h ∧
    NullHandler.withGroup h g = h :=
  ⟨rfl, rfl, rfl, rfl⟩

/-! ## Claims about Handle -/

/-- C1: whenever the pretty flag is set and the message is the literal
string "raw", Handle bypasses JSON serialization of the merged field-set
entirely (the codec's marshalers are arbitrary here, so nothing is asked
of them) and writes the verbose per-field dump lines instead,
succeeding. -/
theorem handle_raw_dump {β : Type} (bo : BufOps β) (cdc : Codec β)
    (delegate : List BoundItem → Record → Except Unit β)
    (h : Handler) (b0 : β) (s : Bool) (r : Record) (bytes : β) (m : List (String × Value))
    (hp : h.pretty = true) (hm : r.message = "raw")
    (hd : delegate h.bound (recordForEncode h r) = Except.ok bytes)
    (hu : cdc.unmarshalObj (bo.append b0 bytes) = Except.ok m) :
    (Handle bo cdc delegate h b0 s r).ret = Except.ok () ∧
    (Handle bo cdc delegate h b0 s r).written =
      some (outLead h r ++ rawDump (mergedFields h r m) ++ "\n") ∧
    (Handle bo cdc delegate h b0 s r).fieldsUsed = some (mergedFields h r m) := by
  simp [Handle, hd, hu, serializeFields, hp, hm]

theorem handle_raw_dump_witness :
    (Handle (BufOps.mk ([] : List (String × Value)) (· ++ ·))
      ⟨fun b => Except.ok b, fun _ => Except.error (), fun _ => Except.error ()⟩
      (fun b r => Except.ok (delegateMapping b r))
      ⟨"json", true, []⟩ [] true ⟨"2024-01-02 03:04:05", 0, "raw", [⟨"x", Value.int 5⟩]⟩).ret =
        Except.ok () ∧
    (Handle (BufOps.mk ([] : List (String × Value)) (· ++ ·))
      ⟨fun b => Except.ok b, fun _ => Except.error (), fun _ => Except.error ()⟩
      (fun b r => Except.ok (delegateMapping b r))
      ⟨"json", true, []⟩ [] true ⟨"2024-01-02 03:04:05", 0, "raw", [⟨"x", Value.int 5⟩]⟩).written =
      some (outLead ⟨"json", true, []⟩ ⟨"2024-01-02 03:04:05", 0, "raw", [⟨"x", Value.int 5⟩]⟩ ++
        rawDump (mergedFields ⟨"json", true, []⟩
          ⟨"2024-01-02 03:04:05", 0, "raw", [⟨"x", Value.int 5⟩]⟩
          (delegateMapping []
            (recordForEncode ⟨"json", true, []⟩
              ⟨"2024-01-02 03:04:05", 0, "raw", [⟨"x", Value.int 5⟩]⟩))) ++ "\n") ∧
    (Handle (BufOps.mk ([] : List (String × Value)) (· ++ ·))
      ⟨fun b => Except.ok b, fun _ => Except.error (), fun _ => Except.error ()⟩
      (fun b r => Except.ok (delegateMapping b r))
      ⟨"json", true, []⟩ [] true
      ⟨"2024-01-02 03:04:05", 0, "raw", [⟨"x", Value.int 5⟩]⟩).fieldsUsed =
      some (mergedFields ⟨"json", true, []⟩ ⟨"2024-01-02 03:04:05", 0, "raw", [⟨"x", Value.int 5⟩]⟩
        (delegateMapping []
          (recordForEncode ⟨"json", true, []⟩
            ⟨"2024-01-02 03:04:05", 0, "raw", [⟨"x", Value.int 5⟩]⟩))) :=
  handle_raw_dump _ _ _ _ _ _ _ _ _ rfl rfl rfl rfl

/-- C2: on every exit path of Handle — success, delegate failure, decode
failure or serialization failure — the scratch buffer ends reset to
empty, and the event trace releases the mutex only immediately after the
buffer reset, the lock having been taken first. -/
theorem handle_buffer_reset {β : Type} (bo : BufOps β) (cdc : Codec β)
    (delegate : List BoundItem → Record → Except Unit β)
    (h : Handler) (b0 : β) (s : Bool) (r : Record) :
    (Handle bo cdc delegate h b0 s r).bufferFinal = bo.empty ∧
    ∃ mid, (Handle bo cdc delegate h b0 s r).events =
      Event.lock :: mid ++ [Event.resetBuffer, Event.unlock] := by
  cases hd : delegate h.bound (recordForEncode h r) with
  | error e =>
    exact ⟨by simp [Handle, hd], [], by simp [Handle, hd]⟩
  | ok bytes =>
    cases hu : cdc.unmarshalObj (bo.append b0 bytes) with
    | error e =>
      exact ⟨by simp [Handle, hd, hu], [], by simp [Handle, hd, hu]⟩
    | ok m =>
      cases hs : serializeFields cdc h r.message (mergedFields h r m) with
      | error e =>
        exact ⟨by simp [Handle, hd, hu, hs], [], by simp [Handle, hd, hu, hs]⟩
      | ok body =>
        exact ⟨by simp [Handle, hd, hu, hs],
          [Event.write (outLead h r ++ body ++ "\n")], by simp [Handle, hd, hu, hs]⟩

/-- C3: Handle returns an error exactly when the delegate encoding, the
scratch-buffer decode, or the final serialization fails, and its return
value does not depend on the sink write's result (the second conjunct
quantifies over every sink outcome). -/
theorem handle_error_iff {β : Type} (bo : BufOps β) (cdc : Codec β)
    (delegate : List BoundItem → Record → Except Unit β)
    (h : Handler) (b0 : β) (s : Bool) (r : Record) :
    ((Handle bo cdc delegate h b0 s r).ret = Except.error () ↔
      delegate h.bound (recordForEncode h r) = Except.error () ∨
      (∃ bytes, delegate h.bound (recordForEncode h r) = Except.ok bytes ∧
        (cdc.unmarshalObj (bo.append b0 bytes) = Except.error () ∨
         (∃ m, cdc.unmarshalObj (bo.append b0 bytes) = Except.ok m ∧
           serializeFields cdc h r.message (mergedFields h r m) = Except.error ())))) ∧
    (∀ s2 : Bool, (Handle bo cdc delegate h b0 s2 r).ret = (Handle bo cdc delegate h b0 s r).ret) := by
  refine ⟨?_, fun s2 => rfl⟩
  cases hd : delegate h.bound (recordForEncode h r) with
  | error e =>
    cases e
    simp [Handle, hd]
  | ok bytes =>
    cases hu : cdc.unmarshalObj (bo.append b0 bytes) with
    | error e =>
      cases e
      simp [Handle, hd, hu]
    | ok m =>
      cases hs : serializeFields cdc h r.message (mergedFields h r m) with
      | error e =>
        cases e
        simp [Handle, hd, hu, hs]
      | ok body =>
        simp [Handle, hd, hu, hs]

/-- C4: in JSON mode, when the decoded scratch-buffer mapping is merged
into the field-set seeded with level, msg and time, a key present in the
decoded mapping ends up bound to the decoded value: decoded attributes
overwrite seeded (and per-record) bindings of the same key. -/
theorem handle_decoded_overwrites {β : Type} (bo : BufOps β) (cdc : Codec β)
    (delegate : List BoundItem → Record → Except Unit β)
    (h : Handler) (b0 : β) (s : Bool) (r : Record) (bytes : β) (m : List (String × Value))
    (k : String) (v : Value)
    (_hj : h.format = "json")
    (hd : delegate h.bound (recordForEncode h r) = Except.ok bytes)
    (hu : cdc.unmarshalObj (bo.append b0 bytes) = Except.ok m)
    (hnd : (m.map Prod.fst).Nodup) (hkv : (k, v) ∈ m) :
    (Handle bo cdc delegate h b0 s r).fieldsUsed = some (mergedFields h r m) ∧
    lookupField (mergedFields h r m) k = some v := by
  constructor
  · cases hs : serializeFields cdc h r.message (mergedFields h r m) with
    | error e => simp [Handle, hd, hu, hs]
    | ok body => simp [Handle, hd, hu, hs]
  · have hmem : (Attr.mk k v) ∈ m.map (fun kv => Attr.mk kv.1 kv.2) := by
      exact List.mem_map_of_mem (fun kv => Attr.mk kv.1 kv.2) hkv
    have hkeys : ((m.map fun kv => Attr.mk kv.1 kv.2).map Attr.key).Nodup := by
      simpa [List.map_map, Function.comp] using hnd
    have := lookupField_fold_mem (m.map fun kv => Attr.mk kv.1 kv.2) ⟨k, v⟩ hmem hkeys
      (buildFields (recordForEncode h r).attrs)
    simpa [mergedFields, buildFields, List.foldl_append] using this

theorem handle_decoded_overwrites_witness :
    (Handle (BufOps.mk ([] : List (String × Value)) (· ++ ·))
      ⟨fun b => Except.ok b, fun _ => Except.error (), fun _ => Except.error ()⟩
      (fun b r => Except.ok (delegateMapping b r))
      ⟨"json", false, []⟩ [] true
      ⟨"t0", 0, "hello", [⟨"raw;msg", Value.str "x"⟩]⟩).fieldsUsed =
      some (mergedFields ⟨"json", false, []⟩ ⟨"t0", 0, "hello", [⟨"raw;msg", Value.str "x"⟩]⟩
        (delegateMapping []
          (recordForEncode ⟨"json", false, []⟩ ⟨"t0", 0, "hello", [⟨"raw;msg", Value.str "x"⟩]⟩))) ∧
    lookupField
      (mergedFields ⟨"json", false, []⟩ ⟨"t0", 0, "hello", [⟨"raw;msg", Value.str "x"⟩]⟩
        (delegateMapping []
          (recordForEncode ⟨"json", false, []⟩ ⟨"t0", 0, "hello", [⟨"raw;msg", Value.str "x"⟩]⟩)))
      "msg" = some (Value.str "\x22x\x22") :=
  handle_decoded_overwrites _ _ _ _ _ _ _ _ _ "msg" (Value.str "\x22x\x22")
    rfl rfl rfl (by decide) (by decide)

/-! ## Path lemmas for the source-location rewrite -/

theorem takeWhile_append_sat {α : Type} (p : α → Bool) (l1 l2 : List α)
    (h : ∀ a ∈ l1, p a = true) : (l1 ++ l2).takeWhile p = l1 ++ l2.takeWhile p := by
  induction l1 with
  | nil => simp
  | cons a t ih =>
    have ha := h a (List.mem_cons_self a t)
    simp [List.takeWhile_cons, ha, ih (fun x hx => h x (List.mem_cons_of_mem a hx))]

theorem dropWhile_append_sat {α : Type} (p : α → Bool) (l1 l2 : List α)
    (h : ∀ a ∈ l1, p a = true) : (l1 ++ l2).dropWhile p = l2.dropWhile p := by
  induction l1 with
  | nil => simp
  | cons a t ih =>
    have ha := h a (List.mem_cons_self a t)
    simp [List.dropWhile_cons, ha, ih (fun x hx => h x (List.mem_cons_of_mem a hx))]

theorem pathSplit_of_shape (pre d f : List Char) (hf : ∀ c ∈ f, c ≠ '/') :
    pathSplit (pre ++ ['/'] ++ d ++ ['/'] ++ f) = (pre ++ ['/'] ++ d ++ ['/'], f) := by
  have hfr : ∀ c ∈ f.reverse, (fun x => decide (x ≠ '/')) c = true := by
    intro c hc
    simp [hf c (List.mem_reverse.mp hc)]
  have hrev : (pre ++ ['/'] ++ d ++ ['/'] ++ f).reverse
      = f.reverse ++ ('/' :: (d.reverse ++ ('/' :: pre.reverse))) := by
    simp
  unfold pathSplit
  rw [hrev, takeWhile_append_sat _ _ _ hfr, dropWhile_append_sat _ _ _ hfr]
  simp [List.takeWhile_cons, List.dropWhile_cons]

theorem pathBase_of_shape (pre d : List Char) (hd0 : d ≠ []) (hd : ∀ c ∈ d, c ≠ '/') :
    pathBase (pre ++ ['/'] ++ d ++ ['/']) = d := by
  obtain ⟨c, t, hct⟩ : ∃ c t, d.reverse = c :: t := by
    cases hdr : d.reverse with
    | nil => exact absurd (List.reverse_eq_nil_iff.mp hdr) hd0
    | cons c t => exact ⟨c, t, rfl⟩
  have hc : c ≠ '/' := hd c (List.mem_reverse.mp (hct ▸ List.mem_cons_self c t))
  have hne : pre ++ ['/'] ++ d ++ ['/'] ≠ [] := by simp
  have hrev : (pre ++ ['/'] ++ d ++ ['/']).reverse
      = '/' :: (d.reverse ++ ('/' :: pre.reverse)) := by simp
  unfold pathBase
  rw [if_neg hne, hrev]
  have hdrop : List.dropWhile (fun x => decide (x = '/')) ('/' :: (d.reverse ++ ('/' :: pre.reverse)))
      = d.reverse ++ ('/' :: pre.reverse) := by
    rw [List.dropWhile_cons]
    simp only [decide_eq_true_eq, if_pos rfl]
    rw [hct]
    simp [List.dropWhile_cons, hc]
  rw [hdrop]
  have hq : (d.reverse ++ ('/' :: pre.reverse)).reverse = (pre ++ ['/']) ++ d := by simp
  rw [hq]
  have hqne : (pre ++ ['/']) ++ d ≠ [] := by simp
  rw [if_neg hqne]
  have hqr : ((pre ++ ['/']) ++ d).reverse = d.reverse ++ ('/' :: pre.reverse) := by simp
  rw [hqr]
  have hdr2 : ∀ x ∈ d.reverse, (fun y => decide (y ≠ '/')) x = true := by
    intro x hx
    simp [hd x (List.mem_reverse.mp hx)]
  rw [takeWhile_append_sat _ _ _ hdr2]
  simp [List.takeWhile_cons]

theorem splitOnChar_sepFree (c : Char) (l : List Char) (h : ∀ x ∈ l, x ≠ c) :
    splitOnChar c l = [l] := by
  induction l with
  | nil => rfl
  | cons x t ih =>
    have hx : x ≠ c := h x (List.mem_cons_self x t)
    have := ih (fun y hy => h y (List.mem_cons_of_mem x hy))
    simp [splitOnChar, hx, this]

theorem splitOnChar_append (c : Char) (l1 l2 : List Char) (h : ∀ x ∈ l1, x ≠ c) :
    splitOnChar c (l1 ++ c :: l2) = l1 :: splitOnChar c l2 := by
  induction l1 with
  | nil => simp [splitOnChar]
  | cons x t ih =>
    have hx : x ≠ c := h x (List.mem_cons_self x t)
    have := ih (fun y hy => h y (List.mem_cons_of_mem x hy))
    simp [splitOnChar, hx, this]

theorem joinChar_pair (c : Char) (a b : List Char) : joinChar c [a, b] = a ++ c :: b := by
  simp [joinChar, List.intercalate, List.intersperse]

theorem pathClean_simple (d f : List Char)
    (hd0 : d ≠ []) (hd : ∀ c ∈ d, c ≠ '/') (hd1 : d ≠ ['.']) (hd2 : d ≠ ['.', '.'])
    (hf0 : f ≠ []) (hf : ∀ c ∈ f, c ≠ '/') (hf1 : f ≠ ['.']) (hf2 : f ≠ ['.', '.']) :
    pathClean (d ++ '/' :: f) = d ++ '/' :: f := by
  obtain ⟨c, t, hct⟩ : ∃ c t, d = c :: t := by
    cases d with
    | nil => exact absurd rfl hd0
    | cons c t => exact ⟨c, t, rfl⟩
  have hc : c ≠ '/' := hd c (hct ▸ List.mem_cons_self c t)
  have hne : d ++ '/' :: f ≠ [] := by simp
  have hhead : (d ++ '/' :: f).head? = some c := by rw [hct]; rfl
  have hrooted : decide ((d ++ '/' :: f).head? = some '/') = false := by
    rw [hhead]
    simp [hc]
  have hsegs : splitOnChar '/' (d ++ '/' :: f) = [d, f] := by
    rw [splitOnChar_append '/' d f hd, splitOnChar_sepFree '/' f hf]
  have hstep1 : cleanStep false [] d = [d] := by
    have : ¬(d = [] ∨ d = ['.']) := by
      rintro (h1 | h1)
      · exact hd0 h1
      · exact hd1 h1
    simp [cleanStep, this, hd2]
  have hstep2 : cleanStep false [d] f = [f, d] := by
    have : ¬(f = [] ∨ f = ['.']) := by
      rintro (h1 | h1)
      · exact hf0 h1
      · exact hf1 h1
    simp [cleanStep, this, hf2]
  unfold pathClean
  rw [if_neg hne]
  simp only [hrooted, hsegs, List.foldl_cons, List.foldl_nil, hstep1, hstep2]
  rw [show List.reverse [f, d] = [d, f] from rfl, joinChar_pair]
  simp [hne]

theorem pathJoin2_simple (d f : List Char)
    (hd0 : d ≠ []) (hd : ∀ c ∈ d, c ≠ '/') (hd1 : d ≠ ['.']) (hd2 : d ≠ ['.', '.'])
    (hf0 : f ≠ []) (hf : ∀ c ∈ f, c ≠ '/') (hf1 : f ≠ ['.']) (hf2 : f ≠ ['.', '.']) :
    pathJoin2 d f = d ++ '/' :: f := by
  unfold pathJoin2
  rw [if_pos hd0]
  exact pathClean_simple d f hd0 hd hd1 hd2 hf0 hf hf1 hf2

theorem formatSource_of_shape (pre d f : String) (line : Int)
    (hd0 : d.data ≠ []) (hd : ∀ c ∈ d.data, c ≠ '/') (hd1 : d.data ≠ ['.'])
    (hd2 : d.data ≠ ['.', '.'])
    (hf0 : f.data ≠ []) (hf : ∀ c ∈ f.data, c ≠ '/') (hf1 : f.data ≠ ['.'])
    (hf2 : f.data ≠ ['.', '.']) :
    formatSource (pre ++ "/" ++ d ++ "/" ++ f) line = d ++ "/" ++ f ++ ":" ++ toString line := by
  have hdata : (pre ++ "/" ++ d ++ "/" ++ f).data
      = pre.data ++ ['/'] ++ d.data ++ ['/'] ++ f.data := by
    simp [String.data_append]
  unfold formatSource
  rw [hdata, pathSplit_of_shape pre.data d.data f.data hf]
  have hbase : pathBase (pre.data ++ ['/'] ++ d.data ++ ['/']) = d.data :=
    pathBase_of_shape pre.data d.data hd0 hd
  show String.mk (pathJoin2 (pathBase (pre.data ++ ['/'] ++ d.data ++ ['/'])) f.data) ++ ":" ++
      toString line = d ++ "/" ++ f ++ ":" ++ toString line
  rw [hbase, pathJoin2_simple d.data f.data hd0 hd hd1 hd2 hf0 hf hf1 hf2]
  apply String.ext
  simp [String.data_append]

/-- C7: for an attribute carrying the reserved source-location key and a
file-path/line value whose final two path elements are ordinary names,
the transform rewrites the value to the single string
parent-directory/file:line, with no path components beyond the immediate
parent directory. -/
theorem replaceAttr_source_format (gs : List String) (pre d f : String) (line : Int)
    (hd0 : d.data ≠ []) (hd : ∀ c ∈ d.data, c ≠ '/') (hd1 : d.data ≠ ['.'])
    (hd2 : d.data ≠ ['.', '.'])
    (hf0 : f.data ≠ []) (hf : ∀ c ∈ f.data, c ≠ '/') (hf1 : f.data ≠ ['.'])
    (hf2 : f.data ≠ ['.', '.']) :
    replaceAttr gs ⟨"source", Value.source (pre ++ "/" ++ d ++ "/" ++ f) line⟩ =
      ⟨"source", Value.str (d ++ "/" ++ f ++ ":" ++ toString line)⟩ := by
  calc replaceAttr gs ⟨"source", Value.source (pre ++ "/" ++ d ++ "/" ++ f) line⟩
      = ⟨"source", Value.str (formatSource (pre ++ "/" ++ d ++ "/" ++ f) line)⟩ := rfl
    _ = ⟨"source", Value.str (d ++ "/" ++ f ++ ":" ++ toString line)⟩ := by
        rw [formatSource_of_shape pre d f line hd0 hd hd1 hd2 hf0 hf hf1 hf2]

theorem replaceAttr_source_format_witness :
    (∀ c ∈ ("pkg" : String).data, c ≠ '/') ∧
    (∀ c ∈ ("file.go" : String).data, c ≠ '/') ∧
    replaceAttr [] ⟨"source", Value.source ("/app" ++ "/" ++ "pkg" ++ "/" ++ "file.go") 42⟩ =
      ⟨"source", Value.str ("pkg" ++ "/" ++ "file.go" ++ ":" ++ toString (42 : Int))⟩ :=
  ⟨by decide, by decide,
   replaceAttr_source_format [] "/app" "pkg" "file.go" 42
     (by decide) (by decide) (by decide) (by decide)
     (by decide) (by decide) (by decide) (by decide)⟩

/-! ## Seed-key precedence: counterexample and corrected statement -/

/-- C10 counterexample: an attribute keyed raw;level is rewritten by the
transform to the key level, survives encoding, and — because decoded
attributes overwrite seeded ones — replaces the seeded level in the
output field-set.  So the decoded mapping can contain a reserved key and
the output's level field does not always come from the record itself. -/
theorem seed_override_counterexample :
    lookupField
      ((Handle pairBuf failSerializeCodec loggerDelegate ⟨"json", false, []⟩ [] true
        spoofRecord).fieldsUsed.getD []) "level" = some (Value.str "\x22spoof\x22") ∧
    Value.str "\x22spoof\x22" ≠ Value.str (strToLower (levelString spoofRecord.level)) :=
  ⟨rfl, by decide⟩

theorem elideTransform_key (a : Attr) (kv : String × Value)
    (h : elideTransform a = some kv) : kv.1 = (replaceAttr [] a).key := by
  unfold elideTransform at h
  by_cases he : replaceAttr [] a = Attr.empty
  · rw [if_pos he] at h
    cases h
  · rw [if_neg he] at h
    injection h with h2
    rw [← h2]

/-- Every top-level key the delegate emits comes from a transformed
record attribute, a transformed bound attribute, or a bound group
name. -/
theorem encodedPairs_key_source (bound : List BoundItem) (ras : List Attr)
    (kv : String × Value) (hmem : kv ∈ encodedPairs bound ras) :
    (∃ a ∈ ras, (replaceAttr [] a).key = kv.1) ∨
    (∃ a, BoundItem.attr a ∈ bound ∧ (replaceAttr [] a).key = kv.1) ∨
    (∃ g, BoundItem.group g ∈ bound ∧ g = kv.1) := by
  induction bound with
  | nil =>
    left
    rcases List.mem_filterMap.mp hmem with ⟨a, ha, he⟩
    exact ⟨a, ha, (elideTransform_key a kv he).symm⟩
  | cons item rest ih =>
    cases item with
    | attr a =>
      cases he : elideTransform a with
      | none =>
        have hmem2 : kv ∈ encodedPairs rest ras := by
          simpa [encodedPairs, he] using hmem
        rcases ih hmem2 with h1 | ⟨b, hb, hk⟩ | ⟨g, hg, hk⟩
        · exact Or.inl h1
        · exact Or.inr (Or.inl ⟨b, List.mem_cons_of_mem _ hb, hk⟩)
        · exact Or.inr (Or.inr ⟨g, List.mem_cons_of_mem _ hg, hk⟩)
      | some kv2 =>
        have hmem2 : kv = kv2 ∨ kv ∈ encodedPairs rest ras := by
          simpa [encodedPairs, he] using hmem
        rcases hmem2 with rfl | hmem3
        · exact Or.inr (Or.inl ⟨a, List.mem_cons_self _ _, (elideTransform_key a kv he).symm⟩)
        · rcases ih hmem3 with h1 | ⟨b, hb, hk⟩ | ⟨g, hg, hk⟩
          · exact Or.inl h1
          · exact Or.inr (Or.inl ⟨b, List.mem_cons_of_mem _ hb, hk⟩)
          · exact Or.inr (Or.inr ⟨g, List.mem_cons_of_mem _ hg, hk⟩)
    | group g =>
      cases hin : encodedPairs rest ras with
      | nil =>
        rw [show encodedPairs (BoundItem.group g :: rest) ras = [] by
          rw [encodedPairs, hin]] at hmem
        cases hmem
      | cons p t =>
        have hmem2 : kv = (g, Value.obj (toFieldList (p :: t))) := by
          have := hmem
          rw [show encodedPairs (BoundItem.group g :: rest) ras
              = [(g, Value.obj (toFieldList (p :: t)))] by rw [encodedPairs, hin]] at this
          exact List.mem_singleton.mp this
        exact Or.inr (Or.inr ⟨g, List.mem_cons_self _ _, by rw [hmem2]⟩)

/-- The built-in time/level/msg fields are all dropped by the transform
before they reach the encoded output. -/
theorem builtin_elided (r : Record) : (builtinAttrs r).filterMap elideTransform = [] := rfl

theorem not_reserved_of_seed (r : Record) (a : Attr) (ha : a ∈ seedAttrs r) :
    ¬ reservedKey (replaceAttr [] a).key := by
  have hempty : replaceAttr [] a = Attr.empty := by
    rcases (by simpa [seedAttrs] using ha :
        a = (⟨"level", Value.str (strToLower (levelString r.level))⟩ : Attr) ∨
        a = (⟨"msg", Value.str r.message⟩ : Attr) ∨
        a = (⟨"time", Value.str r.time⟩ : Attr)) with h1 | h1 | h1 <;>
      (rw [h1]; rfl)
  rw [hempty]
  rintro (h | h | h) <;> exact absurd h (by decide)

/-- The lookups of the three reserved keys after the seeded attributes
are folded in, whatever preceded them. -/
theorem lookup_after_seeds (acc : List (String × Value)) (r : Record) :
    lookupField ((seedAttrs r).foldl (fun m a => insertField m a.key a.value) acc) "level"
        = some (Value.str (strToLower (levelString r.level))) ∧
    lookupField ((seedAttrs r).foldl (fun m a => insertField m a.key a.value) acc) "msg"
        = some (Value.str r.message) ∧
    lookupField ((seedAttrs r).foldl (fun m a => insertField m a.key a.value) acc) "time"
        = some (Value.str r.time) := by
  simp only [seedAttrs, List.foldl_cons, List.foldl_nil]
  refine ⟨?_, ?_, ?_⟩
  · rw [lookupField_insertField_ne _ _ _ _ (by decide),
      lookupField_insertField_ne _ _ _ _ (by decide)]
    exact lookupField_insertField_self _ _ _
  · rw [lookupField_insertField_ne _ _ _ _ (by decide)]
    exact lookupField_insertField_self _ _ _
  · exact lookupField_insertField_self _ _ _

/-- C10 amended: in JSON mode with the delegate as wired by NewLogger, an
attribute keyed exactly level, msg or time is dropped by the transform
before encoding and can never override the seeded record values (such
attributes satisfy the hypotheses below, since the transform maps them to
the empty key).  Provided additionally that no transformed attribute key
and no bound group name is itself a reserved key — the raw;-aliasing of
the counterexample — the output's level, msg and time fields always come
from the record itself. -/
theorem seed_keys_from_record (cdc : Codec (List (String × Value))) (h : Handler)
    (s : Bool) (r : Record)
    (hu : ∀ b, cdc.unmarshalObj b = Except.ok b)
    (hj : h.format = "json")
    (hb : ∀ g, BoundItem.group g ∈ h.bound → ¬ reservedKey g)
    (ha : ∀ a, BoundItem.attr a ∈ h.bound → ¬ reservedKey (replaceAttr [] a).key)
    (hr : ∀ a ∈ r.attrs, ¬ reservedKey (replaceAttr [] a).key) :
    (Handle pairBuf cdc loggerDelegate h [] s r).fieldsUsed =
      some (mergedFields h r (delegateMapping h.bound (recordForEncode h r))) ∧
    lookupField (mergedFields h r (delegateMapping h.bound (recordForEncode h r))) "level"
        = some (Value.str (strToLower (levelString r.level))) ∧
    lookupField (mergedFields h r (delegateMapping h.bound (recordForEncode h r))) "msg"
        = some (Value.str r.message) ∧
    lookupField (mergedFields h r (delegateMapping h.bound (recordForEncode h r))) "time"
        = some (Value.str r.time) := by
  have hattrs : (recordForEncode h r).attrs = r.attrs ++ seedAttrs r := by
    simp [recordForEncode, hj]
  have hkeys : ∀ kv ∈ delegateMapping h.bound (recordForEncode h r), ¬ reservedKey kv.1 := by
    intro kv hkv
    unfold delegateMapping at hkv
    rw [builtin_elided, List.nil_append] at hkv
    rcases encodedPairs_key_source h.bound (recordForEncode h r).attrs kv hkv with
      ⟨a, hain, hk⟩ | ⟨a, hain, hk⟩ | ⟨g, hgin, hk⟩
    · rw [hattrs] at hain
      rcases List.mem_append.mp hain with hra | hsa
      · exact hk ▸ hr a hra
      · exact hk ▸ not_reserved_of_seed r a hsa
    · exact hk ▸ ha a hain
    · exact hk ▸ hb g hgin
  constructor
  · cases hs : serializeFields cdc h r.message
        (mergedFields h r (delegateMapping h.bound (recordForEncode h r))) with
    | error e => simp [Handle, loggerDelegate, pairBuf, hu, hs]
    | ok body => simp [Handle, loggerDelegate, pairBuf, hu, hs]
  · have hmap : ∀ x ∈ (delegateMapping h.bound (recordForEncode h r)).map
        (fun kv => Attr.mk kv.1 kv.2), ¬ reservedKey x.key := by
      intro x hx
      rcases List.mem_map.mp hx with ⟨kv, hkv, hxeq⟩
      rw [← hxeq]
      exact hkeys kv hkv
    have hfold : ∀ k : String, reservedKey k →
        lookupField (mergedFields h r (delegateMapping h.bound (recordForEncode h r))) k =
        lookupField ((seedAttrs r).foldl (fun m a => insertField m a.key a.value)
          (r.attrs.foldl (fun m a => insertField m a.key a.value) [])) k := by
      intro k hk
      unfold mergedFields buildFields
      rw [List.foldl_append, hattrs, List.foldl_append]
      exact lookupField_fold_not_mem _ k (fun x hx hc => hmap x hx (hc ▸ hk)) _
    obtain ⟨h1, h2, h3⟩ := lookup_after_seeds
      (r.attrs.foldl (fun m a => insertField m a.key a.value) []) r
    exact ⟨(hfold "level" (Or.inl rfl)).trans h1,
      (hfold "msg" (Or.inr (Or.inl rfl))).trans h2,
      (hfold "time" (Or.inr (Or.inr rfl))).trans h3⟩

theorem seed_keys_from_record_witness :
    (Handle pairBuf failSerializeCodec loggerDelegate
        ⟨"json", false, [BoundItem.attr ⟨"svc", Value.str "api"⟩]⟩ [] true
        ⟨"t0", 2, "hello", [⟨"level", Value.str "HACK"⟩, ⟨"k", Value.str "v"⟩]⟩).fieldsUsed =
      some (mergedFields ⟨"json", false, [BoundItem.attr ⟨"svc", Value.str "api"⟩]⟩
        ⟨"t0", 2, "hello", [⟨"level", Value.str "HACK"⟩, ⟨"k", Value.str "v"⟩]⟩
        (delegateMapping [BoundItem.attr ⟨"svc", Value.str "api"⟩]
          (recordForEncode ⟨"json", false, [BoundItem.attr ⟨"svc", Value.str "api"⟩]⟩
            ⟨"t0", 2, "hello", [⟨"level", Value.str "HACK"⟩, ⟨"k", Value.str "v"⟩]⟩))) ∧
    lookupField (mergedFields ⟨"json", false, [BoundItem.attr ⟨"svc", Value.str "api"⟩]⟩
        ⟨"t0", 2, "hello", [⟨"level", Value.str "HACK"⟩, ⟨"k", Value.str "v"⟩]⟩
        (delegateMapping [BoundItem.attr ⟨"svc", Value.str "api"⟩]
          (recordForEncode ⟨"json", false, [BoundItem.attr ⟨"svc", Value.str "api"⟩]⟩
            ⟨"t0", 2, "hello", [⟨"level", Value.str "HACK"⟩, ⟨"k", Value.str "v"⟩]⟩))) "level"
        = some (Value.str (strToLower (levelString 2))) ∧
    lookupField (mergedFields ⟨"json", false, [BoundItem.attr ⟨"svc", Value.str "api"⟩]⟩
        ⟨"t0", 2, "hello", [⟨"level", Value.str "HACK"⟩, ⟨"k", Value.str "v"⟩]⟩
        (delegateMapping [BoundItem.attr ⟨"svc", Value.str "api"⟩]
          (recordForEncode ⟨"json", false, [BoundItem.attr ⟨"svc", Value.str "api"⟩]⟩
            ⟨"t0", 2, "hello", [⟨"level", Value.str "HACK"⟩, ⟨"k", Value.str "v"⟩]⟩))) "msg"
        = some (Value.str "hello") ∧
    lookupField (mergedFields ⟨"json", false, [BoundItem.attr ⟨"svc", Value.str "api"⟩]⟩
        ⟨"t0", 2, "hello", [⟨"level", Value.str "HACK"⟩, ⟨"k", Value.str "v"⟩]⟩
        (delegateMapping [BoundItem.attr ⟨"svc", Value.str "api"⟩]
          (recordForEncode ⟨"json", false, [BoundItem.attr ⟨"svc", Value.str "api"⟩]⟩
            ⟨"t0", 2, "hello", [⟨"level", Value.str "HACK"⟩, ⟨"k", Value.str "v"⟩]⟩))) "time"
        = some (Value.str "t0") :=
  seed_keys_from_record failSerializeCodec
    ⟨"json", false, [BoundItem.attr ⟨"svc", Value.str "api"⟩]⟩ true
    ⟨"t0", 2, "hello", [⟨"level", Value.str "HACK"⟩, ⟨"k", Value.str "v"⟩]⟩
    (fun b => rfl) rfl
    (fun g hg => BoundItem.noConfusion (List.mem_singleton.mp hg))
    (fun a haa => by
      have hsvc : a = ⟨"svc", Value.str "api"⟩ := by
        injection List.mem_singleton.mp haa
      rw [hsvc]
      decide)
    (by decide)

end Slog
